import Mathlib

/-!
Verification of the core of `e-trade-tax-return-pl-helper` (src/main.rs):
a finite-state scanner over PDF text-show tokens (`parse_brokerage_statement`),
a backward date walk for NBP exchange rates (`get_exchange_rate`), and the
aggregation of transactions (`compute_tax`).

Modelling conventions:
* Rust `f32` values are carried as rationals (`Rat`); string-to-`f32`
  parsing is modelled by a decimal/scientific parser (`parseF32`),
  restricted to finite values. Where rounding order matters — the `f32`
  sums of `compute_tax` — every `f32` addition and multiplication is
  modelled by IEEE-754 binary32 round-to-nearest-even (`roundF32`) after
  the exact rational operation; `compute_tax_exact` is the exact-arithmetic
  idealization of the same aggregation.
* A Rust panic (`unwrap` / `expect` / out-of-bounds index) is a distinct
  outcome, not a returned error: fallible functions land in outcome types
  with an explicit `panic` constructor.
* PDF strings are modelled as already-decoded Lean `String`s
  (`PdfString::into_string` on statement text succeeds).
* The unbounded `while` loop of `get_exchange_rate` is modelled with fuel;
  running out of fuel is the `diverge` outcome (the loop is still running).
-/

namespace ETrade

/-- The scanner states of `enum ParserState` in src/main.rs. -/
inductive ParserState where
  | SearchingDividendEntry
  | SearchingINTCEntry
  | SearchingTaxEntry
  | SearchingGrossEntry
deriving DecidableEq

/-- `struct Transaction` of src/main.rs, with `f32` modelled as `Rat`. -/
structure Transaction where
  transaction_date : String
  gross_us : Rat
  tax_us : Rat
  exchange_rate_date : String
  exchange_rate : Rat
deriving DecidableEq

/-- The fragment of `pdf::primitive::Primitive` the scanner inspects:
arrays and strings; every other primitive kind is collapsed into `other`
(the scanner treats them all alike, by falling through). -/
inductive Primitive where
  | pString (s : String)
  | pArray (xs : List Primitive)
  | other

/-- One content-stream operation: `op.operator` and `op.operands`. -/
structure Op where
  operator : String
  operands : List Primitive

/-- Result of processing one token in the scanner loop body
(lines 126-180 of src/main.rs): panic, emit-and-return, or continue with
updated state, transaction date and tax. -/
inductive StepRes where
  | panic
  | emit (transaction_date : String) (gross_us : Rat) (tax_us : Rat)
  | cont (st : ParserState) (transaction_date : String) (tax_us : Rat)
deriving DecidableEq

/-- Numeric value of a digit string. -/
def digitsVal (cs : List Char) : Nat :=
  cs.foldl (fun a c => a * 10 + (c.toNat - 48)) 0

/-- Rust `str::parse::<f32>` modelled over rationals: optional sign, a
mantissa of digits with an optional fractional part (digits required on at
least one side of the dot), and an optional exponent. `inf`/`NaN` forms are
outside the model. Returns `none` exactly when Rust's parse would fail on
such finite-decimal inputs. The value is assembled as one `mkRat` from
natural-number arithmetic. -/
def parseF32 (s : String) : Option Rat :=
  let cs := s.data
  let (neg, rest) :=
    match cs with
    | '+' :: r => (false, r)
    | '-' :: r => (true, r)
    | r => (false, r)
  let intPart := rest.takeWhile Char.isDigit
  let rest2 := rest.dropWhile Char.isDigit
  let (fracPart, rest3) :=
    match rest2 with
    | '.' :: r2 => (r2.takeWhile Char.isDigit, r2.dropWhile Char.isDigit)
    | r2 => (([] : List Char), r2)
  if intPart = [] ∧ fracPart = [] then none
  else
    let k := fracPart.length
    let mant := digitsVal intPart * 10 ^ k + digitsVal fracPart
    let mkVal (eneg : Bool) (emag : Nat) : Rat :=
      let nd := if eneg then (mant, 10 ^ (k + emag)) else (mant * 10 ^ emag, 10 ^ k)
      if neg then mkRat (-(nd.1 : Int)) nd.2 else mkRat (nd.1 : Int) nd.2
    match rest3 with
    | [] => some (mkVal false 0)
    | c :: r4 =>
      if c = 'e' ∨ c = 'E' then
        let (eneg, r5) :=
          match r4 with
          | '+' :: r5 => (false, r5)
          | '-' :: r5 => (true, r5)
          | r5 => (false, r5)
        if r5 ≠ [] ∧ r5.all Char.isDigit then some (mkVal eneg (digitsVal r5))
        else none
      else none

/-- The `match state` block of `parse_brokerage_statement` (src/main.rs
lines 136-172) on one shown string: the four-state machine, with
`.unwrap()` of a failed `parse::<f32>()` as a panic. -/
def stepStr (st : ParserState) (transaction_date : String) (tax_us : Rat)
    (actual_string : String) : StepRes :=
  match st with
  | ParserState.SearchingDividendEntry =>
    if actual_string = "Dividend" then
      .cont ParserState.SearchingINTCEntry transaction_date tax_us
    else
      .cont ParserState.SearchingDividendEntry actual_string tax_us
  | ParserState.SearchingINTCEntry =>
    if actual_string = "INTC" then
      .cont ParserState.SearchingTaxEntry transaction_date tax_us
    else
      .cont ParserState.SearchingINTCEntry transaction_date tax_us
  | ParserState.SearchingTaxEntry =>
    match parseF32 actual_string with
    | none => .panic
    | some v => .cont ParserState.SearchingGrossEntry transaction_date v
  | ParserState.SearchingGrossEntry =>
    match parseF32 actual_string with
    | none => .panic
    | some gross_us => .emit transaction_date gross_us tax_us

/-- The loop body of `parse_brokerage_statement` (src/main.rs lines
126-180) on one operation. `"TJ"` tokens with a non-empty operand list whose
first operand is an array are inspected: an empty array panics (`&c[0]` is
an out-of-bounds index), an array headed by a string drives the state
machine (`stepStr`), anything else falls through. -/
def scanStep (st : ParserState) (transaction_date : String) (tax_us : Rat)
    (op : Op) : StepRes :=
  if op.operator = "TJ" then
    match op.operands with
    | [] => .cont st transaction_date tax_us
    | a :: _ =>
      match a with
      | Primitive.pArray c =>
        match c with
        | [] => .panic
        | c0 :: _ =>
          match c0 with
          | Primitive.pString actual_string =>
            stepStr st transaction_date tax_us actual_string
          | _ => .cont st transaction_date tax_us
      | _ => .cont st transaction_date tax_us
  else .cont st transaction_date tax_us

/-- How the scanner's loop body classifies a token: ignored, panicking
(text-show with an empty first-operand array), or showing a string. -/
inductive TokView where
  | inert
  | bad
  | shows (s : String)

/-- The classification of a token. -/
def tokView (op : Op) : TokView :=
  if op.operator = "TJ" then
    match op.operands with
    | Primitive.pArray [] :: _ => .bad
    | Primitive.pArray (Primitive.pString s :: _) :: _ => .shows s
    | _ => .inert
  else .inert

/-- Outcome of the scan over a whole token stream: panic, fall off the end
of the stream (the `Err(format!(...))` line), or the `Ok` return carrying
`(transaction_date, gross_us, tax_us)`. -/
inductive ScanOut where
  | panic
  | incomplete
  | ok (transaction_date : String) (gross_us : Rat) (tax_us : Rat)
deriving DecidableEq

/-- The scan loop of `parse_brokerage_statement` over the flattened token
stream (pages × operations), starting from a given state and accumulators. -/
def scanLoop (st : ParserState) (transaction_date : String) (tax_us : Rat) :
    List Op → ScanOut
  | [] => .incomplete
  | op :: rest =>
    match scanStep st transaction_date tax_us op with
    | .panic => .panic
    | .emit d g t => .ok d g t
    | .cont st' d' t' => scanLoop st' d' t' rest

/-- `parse_brokerage_statement` (src/main.rs lines 113-184), given the token
stream extracted from the named PDF. `none` is a panic; otherwise the
`Result<(String, f32, f32), String>` value is returned. Initial state is
`SearchingDividendEntry` with `transaction_date = "N/A"` and `tax_us = 0.0`. -/
def parse_brokerage_statement (pdftoparse : String) (ops : List Op) :
    Option (Except String (String × Rat × Rat)) :=
  match scanLoop ParserState.SearchingDividendEntry "N/A" 0 ops with
  | .panic => none
  | .incomplete => some (Except.error ("Error parsing pdf: " ++ pdftoparse))
  | .ok d g t => some (Except.ok (d, g, t))

/-- A `"TJ"` token whose first operand is a one-element array holding the
given string: the shape of every text token the scanner acts on. -/
def mkStrTok (s : String) : Op :=
  ⟨"TJ", [Primitive.pArray [Primitive.pString s]]⟩

/-- Equality on `Except` values is decidable componentwise. -/
def exceptDecEq {ε α : Type} [DecidableEq ε] [DecidableEq α] :
    DecidableEq (Except ε α) := fun a b =>
  match a, b with
  | .ok x, .ok y =>
    if h : x = y then isTrue (by rw [h])
    else isFalse (fun hh => by cases hh; exact h rfl)
  | .error x, .error y =>
    if h : x = y then isTrue (by rw [h])
    else isFalse (fun hh => by cases hh; exact h rfl)
  | .ok _, .error _ => isFalse (fun hh => by cases hh)
  | .error _, .ok _ => isFalse (fun hh => by cases hh)

instance {ε α : Type} [DecidableEq ε] [DecidableEq α] :
    DecidableEq (Except ε α) := exceptDecEq

/-- A calendar date as handled by `chrono::NaiveDate`: year (signed),
month, day. -/
structure NaiveDate where
  y : Int
  m : Nat
  d : Nat
deriving DecidableEq

/-- Gregorian leap-year test. -/
def isLeapYear (y : Int) : Bool :=
  y % 4 = 0 && (y % 100 ≠ 0 || y % 400 = 0)

/-- Days in a month of a given year (months outside 1..12 never arise for
dates built by `parseDateMDY` / `predDate`). -/
def daysInMonth (y : Int) (m : Nat) : Nat :=
  match m with
  | 2 => if isLeapYear y then 29 else 28
  | 4 => 30
  | 6 => 30
  | 9 => 30
  | 11 => 30
  | _ => 31

/-- `date.checked_sub_signed(Duration::days(1))`: the previous calendar
day. -/
def predDate (date : NaiveDate) : NaiveDate :=
  if date.d > 1 then ⟨date.y, date.m, date.d - 1⟩
  else if date.m > 1 then ⟨date.y, date.m - 1, daysInMonth date.y (date.m - 1)⟩
  else ⟨date.y - 1, 12, 31⟩

/-- Strict chronological order on dates (lexicographic on year, month,
day). -/
def dateLt (a b : NaiveDate) : Prop :=
  a.y < b.y ∨ (a.y = b.y ∧ (a.m < b.m ∨ (a.m = b.m ∧ a.d < b.d)))

instance (a b : NaiveDate) : Decidable (dateLt a b) := by
  unfold dateLt; infer_instance

/-- A 1- or 2-digit numeric field, as accepted by chrono's `%m`/`%d`/`%y`
specifiers. -/
def numField2 (t : List Char) : Option Nat :=
  if t ≠ [] ∧ t.length ≤ 2 ∧ t.all Char.isDigit then
    some (digitsVal t)
  else none

/-- Split a character list on `'/'` separators. -/
def splitOnSlash : List Char → List (List Char)
  | [] => [[]]
  | c :: rest =>
    let r := splitOnSlash rest
    if c = '/' then [] :: r
    else
      match r with
      | [] => [[c]]
      | h :: t => (c :: h) :: t

/-- `chrono::NaiveDate::parse_from_str(s, "%m/%d/%y")`: month/day/2-digit
year separated by slashes, whole string consumed, calendar-valid; `%y`
maps 00-68 to 2000-2068 and 69-99 to 1969-1999. -/
def parseDateMDY (s : String) : Option NaiveDate :=
  match splitOnSlash s.data with
  | [ms, ds, ys] =>
    match numField2 ms, numField2 ds, numField2 ys with
    | some mv, some dv, some yv =>
      let y : Int := if yv ≤ 68 then 2000 + yv else 1900 + yv
      if 1 ≤ mv ∧ mv ≤ 12 ∧ 1 ≤ dv ∧ dv ≤ daysInMonth y mv then
        some ⟨y, mv, dv⟩
      else none
    | _, _, _ => none
  | _ => none

/-- Zero-padded two-digit decimal rendering. -/
def pad2 (n : Nat) : String :=
  if n < 10 then "0" ++ toString n else toString n

/-- Rendering of `date.format("%Y-%m-%d")` for the years at hand. -/
def formatIso (date : NaiveDate) : String :=
  toString date.y ++ "-" ++ pad2 date.m ++ "-" ++ pad2 date.d

/-- `struct ExchangeRate` of src/main.rs (one entry of the `rates` array),
with `mid: f32` as `Rat`. -/
structure ExchangeRate where
  no : String
  effectiveDate : String
  mid : Rat
deriving DecidableEq

/-- `struct NBPResponse<T>` of src/main.rs: the deserialized JSON body. -/
structure NBPResponse (T : Type) where
  table : String
  currency : String
  code : String
  rates : List T

/-- One HTTP round trip to the NBP rate endpoint for a given date, already
past transport and JSON deserialization (both of which `expect`-panic on
failure in the source and are outside this model): the status
`is_success` flag and the parsed body. -/
def RateSource : Type := NaiveDate → Bool × NBPResponse ExchangeRate

/-- Outcome of a fallible Rust computation returning `Result<α, String>`:
`panic` for an `unwrap`/`expect`/index panic, `diverge` when the loop has
not yet returned (fuel exhausted), `ret` for an actual return value. -/
inductive RunOut (α : Type) where
  | panic
  | diverge
  | ret (v : Except String α)
deriving DecidableEq

/-- The `while is_success == false` loop of `get_exchange_rate`
(src/main.rs lines 83-108), with fuel. Each step first moves one day back,
then queries the source; a non-success response retries, a success response
reads `rates[0]` (panicking on an empty array) and the loop falls through to
`Ok`. Also returns the list of dates queried, in order. -/
def rateWalk (src : RateSource) : Nat → NaiveDate → RunOut (NaiveDate × Rat) × List NaiveDate
  | 0, _ => (.diverge, [])
  | fuel + 1, converted_date =>
    let date' := predDate converted_date
    match src date' with
    | (true, nbp_response) =>
      match nbp_response.rates with
      | [] => (.panic, [date'])
      | r :: _ => (.ret (Except.ok (date', r.mid)), [date'])
    | (false, _) =>
      let rest := rateWalk src fuel date'
      (rest.1, date' :: rest.2)

/-- `get_exchange_rate` (src/main.rs lines 56-111): parse the transaction
date with `"%m/%d/%y"` (`unwrap` panics on failure, before any query is
issued), run the backward walk, and return `Ok((exchange_rate_date,
exchange_rate))` with the date rendered as `"%Y-%m-%d"`. The second
component lists the rate queries issued. -/
def get_exchange_rate (src : RateSource) (fuel : Nat) (transaction_date : String) :
    RunOut (String × Rat) × List NaiveDate :=
  match parseDateMDY transaction_date with
  | none => (.panic, [])
  | some converted_date =>
    match rateWalk src fuel converted_date with
    | (.panic, qs) => (.panic, qs)
    | (.diverge, qs) => (.diverge, qs)
    | (.ret (Except.ok (d, r)), qs) => (.ret (Except.ok (formatIso d, r)), qs)
    | (.ret (Except.error e), qs) => (.ret (Except.error e), qs)

/-- A rate source matching the NBP table around 2021-03-01: the latest
published rate on or before that date is 3.7247 on 2021-02-26 (the repo's
own `test_exchange_rate` scenario). -/
def cSrc26 : RateSource := fun d =>
  if d = ⟨2021, 2, 26⟩ then
    (true, ⟨"A", "dolar amerykanski", "USD",
      [⟨"039/A/NBP/2021", "2021-02-26", mkRat 37247 10000⟩]⟩)
  else (false, ⟨"A", "dolar amerykanski", "USD", []⟩)

/-- A rate source that always answers success with an empty `rates` array. -/
def cSrcEmpty : RateSource := fun _ =>
  (true, ⟨"A", "dolar amerykanski", "USD", []⟩)

/-- A concrete transaction: gross $100, tax $25, rate 4.0. -/
def tA : Transaction :=
  ⟨"03/01/21", mkRat 100 1, mkRat 25 1, "2021-02-26", mkRat 4 1⟩

/-- A concrete transaction: gross $126, tax $10, rate 3.5. -/
def tB : Transaction :=
  ⟨"03/02/21", mkRat 126 1, mkRat 10 1, "2021-02-26", mkRat 35 10⟩

/-- Structurally recursive floor-log2 helper (fueled so the kernel can
evaluate it; 64 bits of fuel covers every magnitude this development
touches). -/
def log2Aux : Nat → Nat → Nat
  | 0, _ => 0
  | fuel + 1, n => if 2 <= n then log2Aux fuel (n / 2) + 1 else 0

/-- Floor of the base-2 logarithm of a natural number (0 for 0 and 1). -/
def natLog2 (n : Nat) : Nat := log2Aux 64 n

/-- Floor of the base-2 logarithm of the positive rational `p / q`: the
unique `e` with `2 ^ e ≤ p / q < 2 ^ (e + 1)`. For `p / q < 1` it is
`-(min k with p * 2 ^ k ≥ q)`, computed from `ceil (q / p)`. -/
def floorLog2 (p q : Nat) : Int :=
  if q <= p then (natLog2 (p / q) : Int)
  else -((natLog2 ((q + p - 1) / p - 1) : Int) + 1)

/-- Integer division of `n` by `d` rounded to the nearest quotient, ties to
the even quotient — the rounding rule of IEEE-754 round-to-nearest-even. -/
def divRNE (n d : Nat) : Nat :=
  let q := n / d
  let r := n % d
  if 2 * r < d then q
  else if d < 2 * r then q + 1
  else if q % 2 = 0 then q else q + 1

/-- The magnitude of the IEEE-754 binary32 value nearest to `p / q`
(`p, q > 0`), as a numerator/denominator pair: the 24-bit significand
window `[2 ^ 23, 2 ^ 24)` is located with `floorLog2` and the scaled
significand rounded with ties to even. The model covers the normal finite
range (no overflow to infinity, no subnormal truncation); every amount in
this development lies well inside it. -/
def roundF32Frac (p q : Nat) : Nat × Nat :=
  let s : Int := 23 - floorLog2 p q
  if 0 <= s then (divRNE (p * 2 ^ s.toNat) q, 2 ^ s.toNat)
  else (divRNE p (q * 2 ^ (-s).toNat) * 2 ^ (-s).toNat, 1)

/-- Round a rational to the nearest IEEE-754 binary32 value
(round-to-nearest, ties to even), by sign and magnitude. -/
def roundF32 (x : Rat) : Rat :=
  if x.num < 0 then
    mkRat (-((roundF32Frac x.num.natAbs x.den).1 : Int))
      (roundF32Frac x.num.natAbs x.den).2
  else
    mkRat ((roundF32Frac x.num.natAbs x.den).1 : Int)
      (roundF32Frac x.num.natAbs x.den).2

/-- Exact rational addition written on numerators and denominators (equal
to `+` on `Rat`, see `ratAdd_eq`; spelled out so the kernel can evaluate
it). -/
def ratAdd (a b : Rat) : Rat :=
  mkRat (a.num * (b.den : Int) + b.num * (a.den : Int)) (a.den * b.den)

/-- Exact rational multiplication written on numerators and denominators
(equal to `*` on `Rat`, see `ratMul_eq`). -/
def ratMul (a b : Rat) : Rat := mkRat (a.num * b.num) (a.den * b.den)

/-- Rust `f32` addition: exact sum, then binary32 rounding. -/
def addF32 (a b : Rat) : Rat := roundF32 (ratAdd a b)

/-- Rust `f32` multiplication: exact product, then binary32 rounding. -/
def mulF32 (a b : Rat) : Rat := roundF32 (ratMul a b)

/-- `compute_tax` (src/main.rs lines 186-198): for each transaction,
multiply gross and tax by that transaction's own exchange rate and sum each
series, yielding `(gross_us_pl, tax_us_pl)`. The source computes in `f32`:
each product and each step of the left-fold `Iterator::sum` (initial value
`0.0`) rounds to binary32. -/
def compute_tax (transactions : List Transaction) : Rat × Rat :=
  let gross_us_pl : Rat :=
    (transactions.map (fun x => mulF32 x.exchange_rate x.gross_us)).foldl addF32 0
  let tax_us_pl : Rat :=
    (transactions.map (fun x => mulF32 x.exchange_rate x.tax_us)).foldl addF32 0
  (gross_us_pl, tax_us_pl)

/-- The same aggregation as `compute_tax` with the arithmetic idealized to
exact rationals — the reading under which the spec's order-independence
"within floating rounding tolerance" is exact. -/
def compute_tax_exact (transactions : List Transaction) : Rat × Rat :=
  let gross_us_pl : Rat :=
    (transactions.map (fun x => x.exchange_rate * x.gross_us)).sum
  let tax_us_pl : Rat :=
    (transactions.map (fun x => x.exchange_rate * x.tax_us)).sum
  (gross_us_pl, tax_us_pl)

/-- A transaction whose gross is 2^24 dollars at rate 1.0 — the magnitude
at which adding 1.0f32 is absorbed. -/
def cT1 : Transaction :=
  ⟨"01/04/21", mkRat 16777216 1, mkRat 0 1, "2021-01-01", mkRat 1 1⟩

/-- A transaction of gross $1 at rate 1.0. -/
def cT2 : Transaction :=
  ⟨"01/05/21", mkRat 1 1, mkRat 0 1, "2021-01-01", mkRat 1 1⟩

/-- Another transaction of gross $1 at rate 1.0. -/
def cT3 : Transaction :=
  ⟨"01/06/21", mkRat 1 1, mkRat 0 1, "2021-01-01", mkRat 1 1⟩

/-- A token the scanner acts on: a `"TJ"` operation whose first operand is
an array whose first element is a string. -/
def processesTok (op : Op) : Prop :=
  op.operator = "TJ" ∧
    ∃ s c rest, op.operands = Primitive.pArray (Primitive.pString s :: c) :: rest

/-- A `"TJ"` operation whose first operand is an empty array (the shape on
which `&c[0]` is an out-of-bounds index). -/
def emptyArrayTok (op : Op) : Prop :=
  op.operator = "TJ" ∧ ∃ rest, op.operands = Primitive.pArray [] :: rest

/-- The string a token shows to the state machine, if any. -/
def shownString (op : Op) : Option String :=
  if op.operator = "TJ" then
    match op.operands with
    | Primitive.pArray (Primitive.pString s :: _) :: _ => some s
    | _ => none
  else none

/-- The strings a token stream shows to the state machine, in order. -/
def shownStrings (ops : List Op) : List String :=
  ops.filterMap shownString

/-! ## Helper lemmas about the scanner -/

/-- Evaluating the loop body through the token classification. -/
theorem scanStep_eq_tokView (st : ParserState) (d : String) (t : Rat) (op : Op) :
    scanStep st d t op =
      match tokView op with
      | .inert => .cont st d t
      | .bad => .panic
      | .shows s => stepStr st d t s := by
  rcases op with ⟨oper, opnds⟩
  by_cases hop : oper = "TJ"
  · subst hop
    rcases opnds with _ | ⟨a, as⟩
    · simp [scanStep, tokView]
    · rcases a with s | c | _
      · simp [scanStep, tokView]
      · rcases c with _ | ⟨c0, cs⟩
        · simp [scanStep, tokView]
        · rcases c0 with s | c' | _ <;> simp [scanStep, tokView]
      · simp [scanStep, tokView]
  · simp [scanStep, tokView, hop]

/-- A token that is not of the processed shape and not an empty-array
text-show token is classified as inert. -/
theorem tokView_inert (op : Op)
    (h1 : ¬ processesTok op) (h2 : ¬ emptyArrayTok op) :
    tokView op = .inert := by
  rcases op with ⟨oper, opnds⟩
  by_cases hop : oper = "TJ"
  · subst hop
    rcases opnds with _ | ⟨a, as⟩
    · simp [tokView]
    · rcases a with s | c | _
      · simp [tokView]
      · rcases c with _ | ⟨c0, cs⟩
        · exact absurd ⟨rfl, as, rfl⟩ h2
        · rcases c0 with s | c' | _
          · exact absurd ⟨rfl, s, cs, as, rfl⟩ h1
          · simp [tokView]
          · simp [tokView]
      · simp [tokView]
  · simp [tokView, hop]

/-- The classification of a token is `shows s` exactly when `shownString`
reports `s`. -/
theorem tokView_shows_iff (op : Op) (s : String) :
    tokView op = .shows s ↔ shownString op = some s := by
  rcases op with ⟨oper, opnds⟩
  by_cases hop : oper = "TJ"
  · subst hop
    rcases opnds with _ | ⟨a, as⟩
    · simp [tokView, shownString]
    · rcases a with s' | c | _
      · simp [tokView, shownString]
      · rcases c with _ | ⟨c0, cs⟩
        · simp [tokView, shownString]
        · rcases c0 with s' | c' | _ <;> simp [tokView, shownString]
      · simp [tokView, shownString]
  · simp [tokView, shownString, hop]

/-- From a non-initial state, the machine never moves back to the initial
state and never changes the recorded transaction date on a `cont`, and an
`emit` carries the incoming date. -/
theorem stepStr_nonInitial (st : ParserState) (d : String) (t : Rat) (s : String)
    (hst : st ≠ ParserState.SearchingDividendEntry) :
    (stepStr st d t s = .panic) ∨
    (∃ g, stepStr st d t s = .emit d g t) ∨
    (∃ st2 t2, st2 ≠ ParserState.SearchingDividendEntry ∧
      stepStr st d t s = .cont st2 d t2) := by
  cases st with
  | SearchingDividendEntry => exact absurd rfl hst
  | SearchingINTCEntry =>
    by_cases h : s = "INTC"
    · exact Or.inr (Or.inr ⟨ParserState.SearchingTaxEntry, t, by simp, by
        simp [stepStr, h]⟩)
    · exact Or.inr (Or.inr ⟨ParserState.SearchingINTCEntry, t, by simp, by
        simp [stepStr, h]⟩)
  | SearchingTaxEntry =>
    cases hp : parseF32 s with
    | none => exact Or.inl (by simp [stepStr, hp])
    | some v =>
      exact Or.inr (Or.inr ⟨ParserState.SearchingGrossEntry, v, by simp, by
        simp [stepStr, hp]⟩)
  | SearchingGrossEntry =>
    cases hp : parseF32 s with
    | none => exact Or.inl (by simp [stepStr, hp])
    | some g => exact Or.inr (Or.inl ⟨g, by simp [stepStr, hp]⟩)

/-- Once the scanner has left `SearchingDividendEntry` the recorded
transaction date is frozen: a successful scan from a non-initial state
reports exactly the date it started with. -/
theorem scanLoop_date_frozen (ops : List Op) :
    ∀ (st : ParserState) (d : String) (t : Rat) (d' : String) (g' t' : Rat),
      st ≠ ParserState.SearchingDividendEntry →
      scanLoop st d t ops = .ok d' g' t' → d' = d := by
  induction ops with
  | nil => intro st d t d' g' t' _ h; simp [scanLoop] at h
  | cons op rest ih =>
    intro st d t d' g' t' hst h
    rw [scanLoop, scanStep_eq_tokView] at h
    cases hv : tokView op with
    | inert =>
      rw [hv] at h
      exact ih st d t d' g' t' hst h
    | bad => rw [hv] at h; simp at h
    | shows s =>
      rw [hv] at h
      dsimp only at h
      rcases stepStr_nonInitial st d t s hst with hp | ⟨g, he⟩ | ⟨st2, t2, hst2, hc⟩
      · rw [hp] at h; simp at h
      · rw [he] at h
        simp only [ScanOut.ok.injEq] at h
        exact h.1.symm
      · rw [hc] at h
        exact ih st2 d t2 d' g' t' hst2 h

/-! ## Helper lemmas about dates and the rate walk -/

/-- Moving one calendar day back yields a strictly earlier date. -/
theorem dateLt_predDate (q : NaiveDate) : dateLt (predDate q) q := by
  unfold predDate dateLt
  split
  · dsimp only; omega
  · split
    · dsimp only; omega
    · dsimp only; omega

/-- Strict chronological order is transitive. -/
theorem dateLt_trans (a b c : NaiveDate)
    (hab : dateLt a b) (hbc : dateLt b c) : dateLt a c := by
  unfold dateLt at *
  omega

/-- Iterated day-stepping, at least once, is strictly decreasing. -/
theorem dateLt_iterate_predDate :
    ∀ (k : Nat), 0 < k → ∀ q, dateLt (predDate^[k] q) q
  | 1, _, q => by simpa using dateLt_predDate q
  | n + 2, _, q => by
    rw [Function.iterate_succ_apply']
    exact dateLt_trans _ _ _ (dateLt_predDate _)
      (dateLt_iterate_predDate (n + 1) (by omega) q)

/-- One unfolding step of the backward walk. -/
theorem rateWalk_succ (src : RateSource) (fuel : Nat) (q : NaiveDate) :
    rateWalk src (fuel + 1) q =
      match src (predDate q) with
      | (true, nbp_response) =>
        match nbp_response.rates with
        | [] => (RunOut.panic, [predDate q])
        | r :: _ => (RunOut.ret (Except.ok (predDate q, r.mid)), [predDate q])
      | (false, _) =>
        ((rateWalk src fuel (predDate q)).1,
          predDate q :: (rateWalk src fuel (predDate q)).2) := rfl

/-- Unfolding `shownStrings` over the head token. -/
theorem shownStrings_cons (op : Op) (ops : List Op) :
    shownStrings (op :: ops) =
      match shownString op with
      | none => shownStrings ops
      | some s => s :: shownStrings ops := by
  cases hso : shownString op <;> simp [shownStrings, List.filterMap_cons, hso]

/-- The spelled-out rational addition agrees with `+` on `Rat`. -/
theorem ratAdd_eq (a b : Rat) : ratAdd a b = a + b := by
  unfold ratAdd
  rw [Rat.mkRat_eq_div]
  conv_rhs => rw [← Rat.num_div_den a, ← Rat.num_div_den b]
  rw [div_add_div _ _ (by exact_mod_cast a.den_nz) (by exact_mod_cast b.den_nz)]
  push_cast
  ring_nf

/-- The spelled-out rational multiplication agrees with `*` on `Rat`. -/
theorem ratMul_eq (a b : Rat) : ratMul a b = a * b := by
  unfold ratMul
  rw [Rat.mkRat_eq_div]
  conv_rhs => rw [← Rat.num_div_den a, ← Rat.num_div_den b]
  rw [div_mul_div_comm]
  push_cast
  ring_nf

/-- A successful return of the backward walk comes from some positive
number of day-steps below the query date, every intermediate queried date
having answered non-success. -/
theorem rateWalk_ret_ok (src : RateSource) (fuel : Nat) :
    ∀ (q d' : NaiveDate) (r : Rat),
      (rateWalk src fuel q).1 = RunOut.ret (Except.ok (d', r)) →
      ∃ k, 0 < k ∧ d' = predDate^[k] q ∧
        ∀ j, 0 < j → j < k → (src (predDate^[j] q)).1 = false := by
  induction fuel with
  | zero => intro q d' r h; simp [rateWalk] at h
  | succ n ih =>
    intro q d' r h
    rw [rateWalk] at h
    rcases hs : src (predDate q) with ⟨succ, body⟩
    rw [hs] at h
    cases succ with
    | true =>
      dsimp only at h
      cases hr : body.rates with
      | nil => rw [hr] at h; simp at h
      | cons r0 rs =>
        rw [hr] at h
        simp only [RunOut.ret.injEq, Except.ok.injEq, Prod.mk.injEq] at h
        refine ⟨1, by omega, ?_, ?_⟩
        · simpa using h.1.symm
        · intro j hj1 hj2; omega
    | false =>
      dsimp only at h
      obtain ⟨k, hk, hdk, hall⟩ := ih (predDate q) d' r h
      refine ⟨k + 1, by omega, ?_, ?_⟩
      · rw [Function.iterate_succ_apply]; exact hdk
      · intro j hj1 hj2
        cases j with
        | zero => omega
        | succ j' =>
          rw [Function.iterate_succ_apply]
          cases j' with
          | zero => simpa using congrArg Prod.fst hs
          | succ j'' => exact hall (j'' + 1) (by omega) (by omega)

/-- The backward walk never constructs the `Err` variant. -/
theorem rateWalk_no_error (src : RateSource) (fuel : Nat) :
    ∀ (q : NaiveDate) (e : String),
      (rateWalk src fuel q).1 ≠ RunOut.ret (Except.error e) := by
  induction fuel with
  | zero => intro q e h; simp [rateWalk] at h
  | succ n ih =>
    intro q e h
    rw [rateWalk] at h
    rcases hs : src (predDate q) with ⟨succ, body⟩
    rw [hs] at h
    cases succ with
    | true =>
      dsimp only at h
      cases hr : body.rates with
      | nil => rw [hr] at h; simp at h
      | cons r0 rs => rw [hr] at h; simp at h
    | false =>
      dsimp only at h
      exact ih (predDate q) e h

/-! ## Claim theorems -/

/-- C1: scanning the token stream ["03/01/21", "Dividend", "INTC", "86.16",
"574.42"], each token given as an independent text-show operation whose
first operand is an array containing that string, returns successfully with
transaction date "03/01/21", tax withheld 86.16 and gross amount 574.42. -/
theorem C1_end_to_end_scan :
    parse_brokerage_statement "example.pdf"
      [mkStrTok "03/01/21", mkStrTok "Dividend", mkStrTok "INTC",
       mkStrTok "86.16", mkStrTok "574.42"] =
    some (Except.ok ("03/01/21", (574.42 : Rat), (86.16 : Rat))) := by
  have hg : (574.42 : Rat) = mkRat 57442 100 := by norm_num
  have ht : (86.16 : Rat) = mkRat 8616 100 := by norm_num
  rw [hg, ht]
  decide

/-- C2: whenever the rate resolver returns successfully for a parseable
query date, the returned effective date is a rendering of a date strictly
earlier than the query date, reached by at least one backward day-step, and
it is the first such earlier date for which the source reports a rate:
every strictly-earlier date skipped on the way answered non-success. -/
theorem C2_effective_date_strictly_earlier (src : RateSource) (fuel : Nat)
    (td : String) (q : NaiveDate) (ds : String) (r : Rat)
    (hq : parseDateMDY td = some q)
    (h : (get_exchange_rate src fuel td).1 = RunOut.ret (Except.ok (ds, r))) :
    ∃ d', ds = formatIso d' ∧ dateLt d' q ∧
      ∃ k, 0 < k ∧ d' = predDate^[k] q ∧
        ∀ j, 0 < j → j < k → (src (predDate^[j] q)).1 = false := by
  unfold get_exchange_rate at h
  rw [hq] at h
  dsimp only at h
  rcases hw : rateWalk src fuel q with ⟨o, qs⟩
  rw [hw] at h
  cases o with
  | panic => simp at h
  | diverge => simp at h
  | ret v =>
    cases v with
    | error e => simp at h
    | ok p =>
      rcases p with ⟨d', r'⟩
      dsimp only at h
      simp only [RunOut.ret.injEq, Except.ok.injEq, Prod.mk.injEq] at h
      obtain ⟨k, hk, hdk, hall⟩ :=
        rateWalk_ret_ok src fuel q d' r' (by rw [hw])
      refine ⟨d', h.1.symm, ?_, k, hk, hdk, hall⟩
      rw [hdk]
      exact dateLt_iterate_predDate k hk q

/-- C2 witness: resolving "03/01/21" against a source whose latest
published rate at or before that date is on 2021-02-26 returns the rate of
2021-02-26, a date strictly before 2021-03-01. -/
theorem C2_effective_date_strictly_earlier_witness :
    (parseDateMDY "03/01/21" = some ⟨2021, 3, 1⟩ ∧
     (get_exchange_rate cSrc26 5 "03/01/21").1 =
       RunOut.ret (Except.ok ("2021-02-26", mkRat 37247 10000))) ∧
    ∃ d', "2021-02-26" = formatIso d' ∧ dateLt d' ⟨2021, 3, 1⟩ ∧
      ∃ k, 0 < k ∧ d' = predDate^[k] (⟨2021, 3, 1⟩ : NaiveDate) ∧
        ∀ j, 0 < j → j < k →
          (cSrc26 (predDate^[j] (⟨2021, 3, 1⟩ : NaiveDate))).1 = false :=
  ⟨⟨by decide, by decide⟩,
   C2_effective_date_strictly_earlier cSrc26 5 "03/01/21" ⟨2021, 3, 1⟩
     "2021-02-26" (mkRat 37247 10000) (by decide) (by decide)⟩

/-- C3 (amended): during the backward walk a non-success response is
treated as "no rate for this date" (the walk decrements and retries), but a
success response with an empty `rates` array is not: it panics on the
`rates[0]` index instead of retrying. -/
theorem C3_no_rate_step_behavior (src : RateSource) (fuel : Nat)
    (q : NaiveDate) :
    ((src (predDate q)).1 = false →
      rateWalk src (fuel + 1) q =
        ((rateWalk src fuel (predDate q)).1,
          predDate q :: (rateWalk src fuel (predDate q)).2)) ∧
    ((src (predDate q)).1 = true → (src (predDate q)).2.rates = [] →
      (rateWalk src (fuel + 1) q).1 = RunOut.panic) := by
  rcases hs : src (predDate q) with ⟨succ, body⟩
  constructor
  · intro hfail
    dsimp only at hfail
    subst hfail
    rw [rateWalk_succ, hs]
  · intro hsucc hempty
    dsimp only at hsucc hempty
    subst hsucc
    rw [rateWalk_succ, hs]
    dsimp only
    rw [hempty]

/-- C3 counterexample: a source answering success with an empty `rates`
array makes the walk panic on its first step (after one single query)
instead of decrementing and retrying. -/
theorem C3_counterexample :
    rateWalk cSrcEmpty 5 ⟨2021, 3, 1⟩ =
      (RunOut.panic, [⟨2021, 2, 28⟩]) := by decide

/-- C3 witness: a non-success response at 2021-02-27 makes the walk from
2021-02-28 recurse one day further back; a success response with empty
`rates` at 2021-02-28 makes the walk from 2021-03-01 panic. -/
theorem C3_no_rate_step_behavior_witness :
    ((cSrc26 (predDate ⟨2021, 2, 28⟩)).1 = false ∧
      rateWalk cSrc26 3 ⟨2021, 2, 28⟩ =
        ((rateWalk cSrc26 2 (predDate ⟨2021, 2, 28⟩)).1,
          predDate ⟨2021, 2, 28⟩ ::
            (rateWalk cSrc26 2 (predDate ⟨2021, 2, 28⟩)).2)) ∧
    ((cSrcEmpty (predDate ⟨2021, 3, 1⟩)).1 = true ∧
      (cSrcEmpty (predDate ⟨2021, 3, 1⟩)).2.rates = [] ∧
      (rateWalk cSrcEmpty 3 ⟨2021, 3, 1⟩).1 = RunOut.panic) :=
  ⟨⟨by decide, (C3_no_rate_step_behavior cSrc26 2 ⟨2021, 2, 28⟩).1 (by decide)⟩,
   ⟨by decide, by decide,
    (C3_no_rate_step_behavior cSrcEmpty 2 ⟨2021, 3, 1⟩).2
      (by decide) (by decide)⟩⟩

/-- C4 (amended): a non-numeric string where a number is expected (the
tax-expecting or gross-expecting state) makes the scan panic (the
`.unwrap()` of the failed `parse::<f32>()`), rather than silently producing
zero — and rather than returning any error value. -/
theorem C4_malformed_amount_panics (d : String) (t : Rat) (s : String)
    (ops : List Op) (h : parseF32 s = none) :
    scanLoop ParserState.SearchingTaxEntry d t (mkStrTok s :: ops) =
      ScanOut.panic ∧
    scanLoop ParserState.SearchingGrossEntry d t (mkStrTok s :: ops) =
      ScanOut.panic := by
  constructor <;> simp [scanLoop, scanStep, mkStrTok, stepStr, h]

/-- C4 counterexample: on a stream whose tax token is the non-numeric
"12three" the scan panics (returns no value at all), so it does not return
a `MalformedAmount` error value. -/
theorem C4_counterexample :
    parse_brokerage_statement "x.pdf"
      [mkStrTok "Dividend", mkStrTok "INTC", mkStrTok "12three"] =
      none := by decide

/-- C4 witness: the non-numeric "12three" panics the scan in both
amount-expecting states. -/
theorem C4_malformed_amount_panics_witness :
    parseF32 "12three" = none ∧
    scanLoop ParserState.SearchingTaxEntry "03/01/21" 0
      [mkStrTok "12three"] = ScanOut.panic ∧
    scanLoop ParserState.SearchingGrossEntry "03/01/21" 0
      [mkStrTok "12three"] = ScanOut.panic :=
  ⟨by decide,
   (C4_malformed_amount_panics "03/01/21" 0 "12three" [] (by decide)).1,
   (C4_malformed_amount_panics "03/01/21" 0 "12three" [] (by decide)).2⟩

/-- C5: the scanner emits at most one record and returns immediately on the
terminal transition: a stream that scans to a record gives the very same
record when any further tokens are appended — the appended tokens are never
examined. -/
theorem C5_early_return (st : ParserState) (d : String) (t : Rat)
    (ops rest : List Op) (d' : String) (g' t' : Rat)
    (h : scanLoop st d t ops = ScanOut.ok d' g' t') :
    scanLoop st d t (ops ++ rest) = ScanOut.ok d' g' t' := by
  induction ops generalizing st d t with
  | nil => simp [scanLoop] at h
  | cons op ops' ih =>
    rw [scanLoop] at h
    rw [List.cons_append, scanLoop]
    cases hstep : scanStep st d t op with
    | panic => rw [hstep] at h; simp at h
    | emit de ge te => rw [hstep] at h; exact h
    | cont st2 d2 t2 => rw [hstep] at h; exact ih st2 d2 t2 h

/-- C5 witness: appending a junk token after the terminal gross token does
not change the emitted record. -/
theorem C5_early_return_witness :
    scanLoop ParserState.SearchingDividendEntry "N/A" 0
      [mkStrTok "03/01/21", mkStrTok "Dividend", mkStrTok "INTC",
       mkStrTok "86.16", mkStrTok "574.42"] =
      ScanOut.ok "03/01/21" (mkRat 57442 100) (mkRat 8616 100) ∧
    scanLoop ParserState.SearchingDividendEntry "N/A" 0
      ([mkStrTok "03/01/21", mkStrTok "Dividend", mkStrTok "INTC",
        mkStrTok "86.16", mkStrTok "574.42"] ++ [mkStrTok "ignored"]) =
      ScanOut.ok "03/01/21" (mkRat 57442 100) (mkRat 8616 100) :=
  ⟨by decide,
   C5_early_return ParserState.SearchingDividendEntry "N/A" 0 _ _ _ _ _
     (by decide)⟩

/-- C6: for a stream that reaches the "Dividend" marker from the initial
state, the emitted record's transaction date is the last string shown while
in `SearchingDividendEntry` before the marker (or the initial date if none
was shown): earlier candidates are overwritten and nothing after the marker
changes the date. -/
theorem C6_last_candidate_date (pre suffix : List Op) (d0 : String)
    (t0 : Rat) (d' : String) (g' t' : Rat)
    (hdiv : "Dividend" ∉ shownStrings pre)
    (h : scanLoop ParserState.SearchingDividendEntry d0 t0
          (pre ++ mkStrTok "Dividend" :: suffix) = ScanOut.ok d' g' t') :
    d' = (shownStrings pre).getLastD d0 := by
  induction pre generalizing d0 with
  | nil =>
    simp only [List.nil_append] at h
    rw [scanLoop] at h
    have hstep : scanStep ParserState.SearchingDividendEntry d0 t0
        (mkStrTok "Dividend") =
        StepRes.cont ParserState.SearchingINTCEntry d0 t0 := by
      simp [scanStep, mkStrTok, stepStr]
    rw [hstep] at h
    have := scanLoop_date_frozen suffix ParserState.SearchingINTCEntry d0 t0
      d' g' t' (by simp) h
    simpa [shownStrings] using this
  | cons op ops' ih =>
    rw [List.cons_append, scanLoop, scanStep_eq_tokView] at h
    cases hv : tokView op with
    | inert =>
      rw [hv] at h
      dsimp only at h
      have hso : shownString op = none := by
        cases hso : shownString op with
        | none => rfl
        | some s =>
          have := (tokView_shows_iff op s).2 hso
          rw [hv] at this
          cases this
      rw [shownStrings_cons, hso] at hdiv ⊢
      exact ih d0 hdiv h
    | bad =>
      rw [hv] at h
      dsimp only at h
      simp at h
    | shows s =>
      rw [hv] at h
      dsimp only at h
      have hso : shownString op = some s := (tokView_shows_iff op s).1 hv
      rw [shownStrings_cons, hso] at hdiv ⊢
      simp only [List.mem_cons, not_or] at hdiv
      have hs_ne : s ≠ "Dividend" := fun he => hdiv.1 he.symm
      have hstep : stepStr ParserState.SearchingDividendEntry d0 t0 s =
          StepRes.cont ParserState.SearchingDividendEntry s t0 := by
        simp [stepStr, hs_ne]
      rw [hstep] at h
      rw [List.getLastD_cons]
      exact ih s hdiv.2 h

/-- C6 witness: with two candidate strings before the marker, the later one
("03/01/21", overwriting "stale") is the emitted transaction date. -/
theorem C6_last_candidate_date_witness :
    ("Dividend" ∉ shownStrings [mkStrTok "stale", mkStrTok "03/01/21"] ∧
     scanLoop ParserState.SearchingDividendEntry "N/A" 0
       ([mkStrTok "stale", mkStrTok "03/01/21"] ++ mkStrTok "Dividend" ::
         [mkStrTok "INTC", mkStrTok "86.16", mkStrTok "574.42"]) =
       ScanOut.ok "03/01/21" (mkRat 57442 100) (mkRat 8616 100)) ∧
    "03/01/21" =
      (shownStrings [mkStrTok "stale", mkStrTok "03/01/21"]).getLastD "N/A" :=
  ⟨⟨by decide, by decide⟩,
   C6_last_candidate_date [mkStrTok "stale", mkStrTok "03/01/21"]
     [mkStrTok "INTC", mkStrTok "86.16", mkStrTok "574.42"] "N/A" 0
     "03/01/21" (mkRat 57442 100) (mkRat 8616 100) (by decide) (by decide)⟩

/-- C7 (amended): aggregation is order-independent in exact arithmetic —
any permutation of a transaction list yields the same
`(gross_total, tax_total)` pair of exact rational totals. The program's
`f32` totals agree with these only within floating rounding tolerance, and
can themselves differ across permutations (see the counterexample). -/
theorem C7_compute_tax_perm_invariant (l1 l2 : List Transaction)
    (h : l1.Perm l2) : compute_tax_exact l1 = compute_tax_exact l2 := by
  unfold compute_tax_exact
  dsimp only
  rw [(h.map (fun x => x.exchange_rate * x.gross_us)).sum_eq,
      (h.map (fun x => x.exchange_rate * x.tax_us)).sum_eq]

/-- C7 counterexample: under the source's `f32` summation, the transaction
list with gross amounts `[2^24, 1, 1]` (all at rate 1.0) totals 16777216
while its permutation `[1, 1, 2^24]` totals 16777218 — `f32` addition is
not associative, so permutations do not always yield identical totals. -/
theorem C7_counterexample :
    ([cT1, cT2, cT3] : List Transaction).Perm [cT2, cT3, cT1] ∧
    compute_tax [cT1, cT2, cT3] ≠ compute_tax [cT2, cT3, cT1] :=
  ⟨by decide, by decide⟩

/-- C7 witness: swapping two concrete transactions leaves the exact totals
unchanged. -/
theorem C7_compute_tax_perm_invariant_witness :
    ([tA, tB] : List Transaction).Perm [tB, tA] ∧
    compute_tax_exact [tA, tB] = compute_tax_exact [tB, tA] :=
  ⟨List.Perm.swap tB tA [],
   C7_compute_tax_perm_invariant [tA, tB] [tB, tA] (List.Perm.swap tB tA [])⟩

/-- C8 (amended): a token that is not a text-show operation whose first
operand is an array headed by a string is not processed: unless it is a
text-show token with an empty first-operand array (which panics), the scan
takes no action on it and does not fail. -/
theorem C8_non_processed_tokens_inert (op : Op) (st : ParserState)
    (d : String) (t : Rat) (rest : List Op)
    (h1 : ¬ processesTok op) (h2 : ¬ emptyArrayTok op) :
    scanLoop st d t (op :: rest) = scanLoop st d t rest := by
  rw [scanLoop, scanStep_eq_tokView, tokView_inert op h1 h2]

/-- C8 counterexample: a text-show token whose first operand is an empty
array makes the scan panic, so it is not true that every non-processed
token shape is skipped without failing. -/
theorem C8_counterexample :
    scanLoop ParserState.SearchingDividendEntry "N/A" 0
      [⟨"TJ", [Primitive.pArray []]⟩] = ScanOut.panic := by decide

/-- C8 witness: a non-text-show token is skipped with no state change. -/
theorem C8_non_processed_tokens_inert_witness :
    ¬ processesTok ⟨"Tf", [Primitive.pString "x"]⟩ ∧
    ¬ emptyArrayTok ⟨"Tf", [Primitive.pString "x"]⟩ ∧
    scanLoop ParserState.SearchingDividendEntry "N/A" 0
      (⟨"Tf", [Primitive.pString "x"]⟩ :: [mkStrTok "Y"]) =
      scanLoop ParserState.SearchingDividendEntry "N/A" 0 [mkStrTok "Y"] := by
  refine ⟨?_, ?_, ?_⟩
  · rintro ⟨ho, -⟩
    exact absurd ho (by decide)
  · rintro ⟨ho, -⟩
    exact absurd ho (by decide)
  · exact C8_non_processed_tokens_inert _ ParserState.SearchingDividendEntry
      "N/A" 0 [mkStrTok "Y"]
      (by rintro ⟨ho, -⟩; exact absurd ho (by decide))
      (by rintro ⟨ho, -⟩; exact absurd ho (by decide))

/-- C9 (amended): an unparseable transaction-date string makes the rate
resolver panic (the `.unwrap()` on date parsing) before issuing any rate
query; no error value is returned. -/
theorem C9_invalid_date_panics_no_query (src : RateSource) (fuel : Nat)
    (s : String) (h : parseDateMDY s = none) :
    get_exchange_rate src fuel s = (RunOut.panic, []) := by
  unfold get_exchange_rate
  rw [h]

/-- C9 counterexample: on the unparseable date "garbage" the resolver
panics returning no value at all (in particular not an `InvalidDate` error
value), and issues no query. -/
theorem C9_counterexample :
    get_exchange_rate cSrc26 5 "garbage" = (RunOut.panic, []) := by decide

/-- C9 witness: the unparseable "garbage" panics the resolver with an empty
query log. -/
theorem C9_invalid_date_panics_no_query_witness :
    parseDateMDY "garbage" = none ∧
    get_exchange_rate cSrc26 5 "garbage" = (RunOut.panic, []) :=
  ⟨by decide, C9_invalid_date_panics_no_query cSrc26 5 "garbage" (by decide)⟩

/-- C10: whenever `get_exchange_rate` returns at all (instead of panicking
or still looping), the returned `Result` is the `Ok` variant — the `Err`
branch of its type is unreachable. -/
theorem C10_err_variant_unreachable (src : RateSource) (fuel : Nat)
    (td : String) (v : Except String (String × Rat))
    (h : (get_exchange_rate src fuel td).1 = RunOut.ret v) :
    ∃ x, v = Except.ok x := by
  unfold get_exchange_rate at h
  cases hp : parseDateMDY td with
  | none => rw [hp] at h; simp at h
  | some q =>
    rw [hp] at h
    dsimp only at h
    rcases hw : rateWalk src fuel q with ⟨o, qs⟩
    rw [hw] at h
    cases o with
    | panic => simp at h
    | diverge => simp at h
    | ret w =>
      cases w with
      | error e =>
        exact absurd (by rw [hw]) (rateWalk_no_error src fuel q e)
      | ok p =>
        rcases p with ⟨d', r'⟩
        dsimp only at h
        simp only [RunOut.ret.injEq] at h
        exact ⟨(formatIso d', r'), h.symm⟩

/-- C10 witness: a successful resolution returns the `Ok` variant. -/
theorem C10_err_variant_unreachable_witness :
    (get_exchange_rate cSrc26 5 "03/01/21").1 =
      RunOut.ret (Except.ok ("2021-02-26", mkRat 37247 10000)) ∧
    ∃ x, Except.ok (ε := String) ("2021-02-26", mkRat 37247 10000) =
      Except.ok x :=
  ⟨by decide,
   C10_err_variant_unreachable cSrc26 5 "03/01/21" _ (by decide)⟩

end ETrade
